import Mathlib

/-!
Verification of the airfuse neighbor-regression / bias-correction / ensemble core.

This file shallowly embeds the numerical core of the repository:
* `airfuse/dnr.py` — `_get_weights` (the sklearn-copied distance weighting),
  `DelaunayNeighborsRegressor.__init__/_get_weights/predict`,
  `GroupedDelaunayNeighborsRegressor.predict`,
  `FusedDelaunayNeighborsRegressor.__init__/predict`;
* `airfuse/dnr/_bc.py` — `_BCRegressor.predict` (the abc/mbc/ambc/bbc algebra);
* `airfuse/ensemble.py` — `distweight`.

Scalars that can hold IEEE special values (results of float division) are
modelled by `Airfuse.PFloat`, rational arithmetic extended with `nan`, `inf`
and `ninf` exactly following IEEE-754 special-value rules (without rounding,
which none of the verified properties depend on).  Quantities that the code
computes by exact arithmetic on finite inputs (distances, weights, scale
factors) are modelled as `ℚ`.  Python `None` is modelled by `Option`; a raised
exception (`TypeError` from multiplying `None`, `KeyError` from a missing
dict entry, `AssertionError` from `assert how in self._needs`) is modelled by
`Except.error`.

The spatial index (`KNeighborsRegressor.kneighbors`) and the scipy Delaunay
triangulation are oracles of the embedding: each query row carries the
neighbor distances `nd`, the neighbor indices `ni` and the triangulation
adjacency output `tri` (already including the nearest-three fallback of
`_isdelaunay`) as inputs, and the theorems quantify over them.
-/

namespace Airfuse

/-- An IEEE-754-style scalar: a rational value or one of the special values
`nan`, `inf` (+∞) and `ninf` (−∞).  Models a numpy float64 cell without
rounding. -/
inductive PFloat where
  | val : ℚ → PFloat
  | nan : PFloat
  | inf : PFloat
  | ninf : PFloat
deriving DecidableEq, Repr

namespace PFloat

/-- IEEE negation. -/
def neg : PFloat → PFloat
  | val a => val (-a)
  | nan => nan
  | inf => ninf
  | ninf => inf

/-- IEEE addition on exact values: `nan` propagates, `inf + ninf = nan`. -/
def add : PFloat → PFloat → PFloat
  | nan, _ => nan
  | _, nan => nan
  | val a, val b => val (a + b)
  | inf, ninf => nan
  | ninf, inf => nan
  | inf, _ => inf
  | _, inf => inf
  | ninf, _ => ninf
  | _, ninf => ninf

/-- IEEE subtraction, `a - b = a + (-b)`. -/
def sub (a b : PFloat) : PFloat := add a (neg b)

/-- IEEE multiplication on exact values: `nan` propagates, `0 * inf = nan`. -/
def mul : PFloat → PFloat → PFloat
  | nan, _ => nan
  | _, nan => nan
  | val a, val b => val (a * b)
  | inf, val b => if b = 0 then nan else if 0 < b then inf else ninf
  | val a, inf => if a = 0 then nan else if 0 < a then inf else ninf
  | ninf, val b => if b = 0 then nan else if 0 < b then ninf else inf
  | val a, ninf => if a = 0 then nan else if 0 < a then ninf else inf
  | inf, inf => inf
  | ninf, ninf => inf
  | inf, ninf => ninf
  | ninf, inf => ninf

/-- Division of two exact rationals under IEEE rules: `0/0 = nan`,
`a/0 = ±inf` for `a ≠ 0`, otherwise the exact quotient.  This is the model of
every numpy float division whose operands are finite. -/
def qdiv (a b : ℚ) : PFloat :=
  if b = 0 then (if a = 0 then nan else if 0 < a then inf else ninf)
  else val (a / b)

/-- IEEE division. -/
def div : PFloat → PFloat → PFloat
  | nan, _ => nan
  | _, nan => nan
  | val a, val b => qdiv a b
  | val _, inf => val 0
  | val _, ninf => val 0
  | inf, val b => if 0 ≤ b then inf else ninf
  | ninf, val b => if 0 ≤ b then ninf else inf
  | inf, inf => nan
  | inf, ninf => nan
  | ninf, inf => nan
  | ninf, ninf => nan

/-- IEEE reciprocal, the model of numpy `x ** -1`: `1/0 = inf`, `1/inf = 0`. -/
def inv (a : PFloat) : PFloat := div (val 1) a

/-- IEEE `<` comparison as numpy computes it: any comparison with `nan` is
false. -/
def lt : PFloat → PFloat → Bool
  | val a, val b => decide (a < b)
  | nan, _ => false
  | _, nan => false
  | ninf, ninf => false
  | ninf, _ => true
  | _, ninf => false
  | inf, _ => false
  | val _, inf => true

/-- `np.mean([a, b], axis=0)`: sum the two entries and divide by two. -/
def mean2 (a b : PFloat) : PFloat := div (add a b) (val 2)

/-- numpy `.sum()`: fold addition starting from `0.0`. -/
def psum (l : List PFloat) : PFloat := l.foldl add (val 0)

instance : Add PFloat := ⟨add⟩
instance : Sub PFloat := ⟨sub⟩
instance : Mul PFloat := ⟨mul⟩
instance : Div PFloat := ⟨div⟩
instance : Neg PFloat := ⟨neg⟩

end PFloat

/-- Python `np.mean(arr)` of a list of finite floats: `nan` on the empty
list, otherwise the exact arithmetic mean. -/
def qmean (l : List ℚ) : PFloat :=
  if l = [] then PFloat.nan else PFloat.val (l.sum / (l.length : ℚ))

/-! ## `airfuse/dnr.py`: weight policy -/

/-- The `weights` constructor argument of `DelaunayNeighborsRegressor`
(dnr.py line 192): `"uniform"`, `"distance"` or a callable applied to the
row of neighbor distances.  (The grouped variant additionally allows a dict
of per-group callables; each group then uses its own callable, which this
per-row model represents by the resolved `callable`.) -/
inductive WeightsParam where
  | uniform
  | distance
  | callable (f : List ℚ → List ℚ)

/-- One row of the sklearn-copied module-level `_get_weights` (dnr.py lines
121-140) in `"distance"` mode: if any neighbor is at exactly zero distance,
those neighbors get weight `1.0` and the others `0.0` (the
`dist[inf_row] = inf_mask[inf_row]` assignment); otherwise the row is the
elementwise reciprocal `1.0 / dist`. -/
def rowDistWeights (row : List ℚ) : List ℚ :=
  if ∃ d ∈ row, d = 0 then row.map (fun d => if d = 0 then 1 else 0)
  else row.map (fun d => 1 / d)

/-- Module-level `_get_weights(dist, weights)` (dnr.py lines 97-143) on one
row: `None` for uniform, the distance rule above for `"distance"`, the
callable applied to the distances otherwise. -/
def skGetWeights (dist : Option (List ℚ)) (wp : WeightsParam) : Option (List ℚ) :=
  match wp with
  | .uniform => none
  | .distance => dist.map rowDistWeights
  | .callable f => dist.map f

/-- dnr.py lines 258-264: under `"uniform"` weighting `kneighbors` is asked
not to return distances, so `neigh_dist` is Python `None`; in every other
mode the distances are computed. -/
def neighDistOpt (wp : WeightsParam) (nd : List ℚ) : Option (List ℚ) :=
  match wp with
  | .uniform => none
  | _ => some nd

/-- dnr.py line 272: `isdn = _isdelaunay(X, srcX, ...) | (neigh_dist == 0)`.
When `neigh_dist` is `None` (uniform mode), Python evaluates
`None == 0` to `False`, so the triangulation output passes through
unchanged; otherwise each entry is or-ed with the zero-distance test. -/
def adjMask (tri : List Bool) (nd : Option (List ℚ)) : List Bool :=
  match nd with
  | none => tri
  | some ds => List.zipWith (fun b d => b || decide (d = 0)) tri ds

/-- The stored `delaunay_weights` strategy after `__init__` (dnr.py lines
211-229).  `raw s` is an unrecognized string literal that fell through every
branch of `__init__` and was stored verbatim. -/
inductive DelaunayParam where
  | dnone
  | equal
  | donly
  | scale (s : ℚ)
  | callable (f : List Bool → Option (List ℚ) → List ℚ)
  | raw (s : String)

/-- The `delaunay_weights` argument as passed to `__init__`. -/
inductive DelaunayInput where
  | dstr (s : String)
  | dnum (q : ℚ)
  | dfn (f : List Bool → Option (List ℚ) → List ℚ)
  | dnone

/-- `DelaunayNeighborsRegressor.__init__` (dnr.py lines 211-229): the three
recognized strings become strategies, an unrecognized string falls through
every branch and is stored verbatim (no error is raised at construction),
a number becomes a scale, `None` and callables are stored as given. -/
def delaunayInit : DelaunayInput → DelaunayParam
  | .dstr s =>
      if s = "none" then .dnone
      else if s = "equal" then .equal
      else if s = "only" then .donly
      else .raw s
  | .dnum q => .scale q
  | .dfn f => .callable f
  | .dnone => .dnone

/-- `np.where(isdn, 1.0, 0.0)`. -/
def indicator (isdn : List Bool) : List ℚ :=
  isdn.map fun b => if b then 1 else 0

/-- Application of the stored `delaunay_weights` strategy inside
`DelaunayNeighborsRegressor._get_weights` (dnr.py lines 270-273), with the
strategy bodies from `__init__` (lines 214-227).  `Except.error` models the
`TypeError` Python raises when `np.where(isdn, s, 1.) * weights` multiplies
`None` (numeric scale under uniform weighting) or when a stored unrecognized
string is called. -/
def applyDelaunay (p : DelaunayParam) (isdn : List Bool) (w : Option (List ℚ)) :
    Except String (Option (List ℚ)) :=
  match p with
  | .dnone => .ok w
  | .equal => .ok (some (indicator isdn))
  | .donly => .ok (some (match w with
      | none => indicator isdn
      | some ws => List.zipWith (· * ·) ws (indicator isdn)))
  | .scale s =>
      match w with
      | none => .error "TypeError"
      | some ws => .ok (some (List.zipWith (· * ·) (isdn.map fun b => if b then s else 1) ws))
  | .callable f => .ok (some (f isdn w))
  | .raw _ => .error "TypeError"

/-- dnr.py lines 275-276: `if self._wgt is not None: weights *= self._wgt[neigh_ind]`.
When the stored per-observation sample weight exists but `weights` is still
Python `None`, the in-place multiplication raises `TypeError`
(modelled as `Except.error`). -/
def applySample (sw : Option (Nat → ℚ)) (ni : List Nat) (w : Option (List ℚ)) :
    Except String (Option (List ℚ)) :=
  match sw with
  | none => .ok w
  | some f =>
      match w with
      | none => .error "TypeError"
      | some ws => .ok (some (List.zipWith (fun wv t => wv * f t) ws ni))

/-- One query row of `DelaunayNeighborsRegressor._get_weights` (dnr.py lines
257-278): distances are only available outside uniform mode, the base
weights come from the sklearn `_get_weights`, the adjacency mask is the
triangulation output or-ed with the zero-distance test, the delaunay
strategy is applied, and finally the stored sample weights are multiplied
in by neighbor index. -/
def dnrGetWeightsRow (wp : WeightsParam) (dp : DelaunayParam) (sw : Option (Nat → ℚ))
    (nd : List ℚ) (ni : List Nat) (tri : List Bool) : Except String (Option (List ℚ)) :=
  let ndOpt := neighDistOpt wp nd
  let w0 := skGetWeights ndOpt wp
  match applyDelaunay dp (adjMask tri ndOpt) w0 with
  | .error e => .error e
  | .ok w1 => applySample sw ni w1

/-! ### helper lemmas on list indexing -/

theorem getD_map_of_lt {α β : Type} (f : α → β) (l : List α) (i : ℕ)
    (d : α) (d2 : β) (h : i < l.length) :
    (l.map f).getD i d2 = f (l.getD i d) := by
  induction l generalizing i with
  | nil => simp at h
  | cons a t ih =>
      cases i with
      | zero => rfl
      | succ n => simpa using ih n (by simpa using h)

theorem getD_zipWith_of_lt {α β γ : Type} (f : α → β → γ) (l1 : List α)
    (l2 : List β) (i : ℕ) (d1 : α) (d2 : β) (d3 : γ)
    (h1 : i < l1.length) (h2 : i < l2.length) :
    (List.zipWith f l1 l2).getD i d3 = f (l1.getD i d1) (l2.getD i d2) := by
  induction l1 generalizing l2 i with
  | nil => simp at h1
  | cons a t ih =>
      cases l2 with
      | nil => simp at h2
      | cons b t2 =>
          cases i with
          | zero => rfl
          | succ n =>
              simpa using ih t2 n (by simpa using h1) (by simpa using h2)

/-! ## Claim C1 -/

/-- C1 (counterexample): the claim asserts that *in any weighting mode* a
zero-distance neighbor's adjacency-mask entry is `True` regardless of the
triangulation output.  Under `"uniform"` weighting `neigh_dist` is `None`
(dnr.py lines 258-262), `None == 0` is `False`, so the mask is exactly the
triangulation output: with true neighbor distance `0` and triangulation
output `[false]`, the mask entry stays `false`. -/
theorem C1_counterexample :
    ([(0 : ℚ)].getD 0 9 = 0) ∧
      (adjMask [false] (neighDistOpt WeightsParam.uniform [(0 : ℚ)])).getD 0 true = false := by
  exact ⟨rfl, rfl⟩

/-- C1 (amended): for a query row containing a zero-distance neighbor,
under `"distance"` weighting the zero-distance neighbors receive weight `1`
and all other neighbors weight `0`; and in any weighting mode *in which the
neighbor distances are computed* (i.e. any mode other than `"uniform"`) the
adjacency-mask entry of a zero-distance neighbor is `true` regardless of the
triangulation output. -/
theorem C1_amended_thm (row : List ℚ) (tri : List Bool) (i : ℕ)
    (hi : i < row.length) (hti : i < tri.length)
    (hz : ∃ d ∈ row, d = 0) :
    ((rowDistWeights row).getD i 9 = if row.getD i 9 = 0 then 1 else 0) ∧
      (row.getD i 9 = 0 →
        (adjMask tri (neighDistOpt WeightsParam.distance row)).getD i false = true) := by
  constructor
  · rw [rowDistWeights, if_pos hz]
    exact getD_map_of_lt _ row i 9 9 hi
  · intro h0
    show (List.zipWith (fun b d => b || decide (d = 0)) tri row).getD i false = true
    rw [getD_zipWith_of_lt _ tri row i false 9 false hti hi, h0]
    simp

/-- Witness for `C1_amended_thm` at the concrete row `[1, 0]` with
triangulation output `[false, false]`. -/
theorem C1_amended_witness :
    ((rowDistWeights [1, 0]).getD 1 9 = if ([(1 : ℚ), 0].getD 1 9 = 0) then 1 else 0) ∧
      (([(1 : ℚ), 0].getD 1 9 = 0) →
        (adjMask [false, false] (neighDistOpt WeightsParam.distance [1, 0])).getD 1 false
          = true) :=
  C1_amended_thm [1, 0] [false, false] 1 (by decide) (by decide) ⟨0, by decide, rfl⟩

/-! ## `DelaunayNeighborsRegressor.predict` (dnr.py lines 280-316) -/

/-- One query row of `DelaunayNeighborsRegressor.predict` (dnr.py lines
296-316).  `Y t` is training row `t` of the stored `_y` (viewed as `m`
output columns), `ni` the neighbor indices and `w` the final weight vector
from `_get_weights` (`none` = Python `None`).  With `None` weights each
column is the plain `np.mean` over the neighbors; otherwise each column is
`sum(_y[neigh_ind, j] * weights) / sum(weights)`, an IEEE float division
(`0/0 = nan`). -/
def dnrPredictRow (Y : Nat → List ℚ) (m : ℕ) (ni : List Nat)
    (w : Option (List ℚ)) : List PFloat :=
  match w with
  | none => (List.range m).map fun j => qmean (ni.map fun t => (Y t).getD j 0)
  | some ws =>
      (List.range m).map fun j =>
        PFloat.qdiv
          (List.sum (List.zipWith (fun t wv => (Y t).getD j 0 * wv) ni ws))
          ws.sum

/-- One query row's neighbor data: indices and final weights as produced by
`_get_weights`. -/
structure QRow where
  ni : List Nat
  w : Option (List ℚ)

/-- The batch `predict`: each query row's prediction is computed
independently from that row's neighbor indices and weights (the numpy
operations in dnr.py lines 301-311 are all rowwise along axis 1), so the
batch is the rowwise map; no row raises. -/
def dnrPredictBatch (Y : Nat → List ℚ) (m : ℕ) (rows : List QRow) :
    List (List PFloat) :=
  rows.map fun r => dnrPredictRow Y m r.ni r.w

theorem list_eq_zero_of_nonneg_sum_zero (l : List ℚ)
    (hnn : ∀ x ∈ l, 0 ≤ x) (hz : l.sum = 0) : ∀ x ∈ l, x = 0 := by
  induction l with
  | nil => simp
  | cons a t ih =>
      have ha : 0 ≤ a := hnn a (by simp)
      have ht : 0 ≤ t.sum := List.sum_nonneg (fun x hx => hnn x (by simp [hx]))
      have hs : a + t.sum = 0 := by simpa using hz
      have ha0 : a = 0 := le_antisymm (by linarith) ha
      have hts : t.sum = 0 := by linarith
      intro x hx
      rcases List.mem_cons.mp hx with h | h
      · exact h ▸ ha0
      · exact ih (fun y hy => hnn y (by simp [hy])) hts x h

theorem zipWith_mul_sum_zero (Y : Nat → List ℚ) (j : ℕ) (ni : List Nat)
    (ws : List ℚ) (hz : ∀ x ∈ ws, x = 0) :
    List.sum (List.zipWith (fun t wv => (Y t).getD j 0 * wv) ni ws) = 0 := by
  induction ni generalizing ws with
  | nil => simp
  | cons a t ih =>
      cases ws with
      | nil => simp
      | cons b t2 =>
          have hb : b = 0 := hz b (by simp)
          have ht := ih t2 (fun x hx => hz x (by simp [hx]))
          simp only [List.zipWith_cons_cons, List.sum_cons, hb, mul_zero, zero_add]
          exact ht

/-! ## Claim C2 -/

/-- C2 (confirmed): in `DelaunayNeighborsRegressor.predict`, a query row
whose final weight vector is an array (not `None`) of non-negative entries
summing to zero yields `nan` in every output column (an IEEE `0/0`); `nan`
is not zero; and the predictions of all other rows of the batch are still
the ordinary rowwise results (the embedding's `predict` is a total rowwise
map — the division does not raise).  Non-negativity of the weight vector is
the spec's own Weight Vector invariant (§3). -/
theorem C2_zero_weight_sum_nan (Y : Nat → List ℚ) (m : ℕ) (rows : List QRow)
    (i : ℕ) (ws : List ℚ)
    (hw : (rows.getD i ⟨[], none⟩).w = some ws)
    (hnn : ∀ x ∈ ws, 0 ≤ x) (hz : ws.sum = 0) (hi : i < rows.length) :
    (dnrPredictBatch Y m rows).getD i [] = List.replicate m PFloat.nan ∧
      PFloat.nan ≠ PFloat.val 0 ∧
      (∀ j, j < rows.length →
        (dnrPredictBatch Y m rows).getD j [] =
          dnrPredictRow Y m (rows.getD j ⟨[], none⟩).ni (rows.getD j ⟨[], none⟩).w) := by
  have hmap : ∀ j, j < rows.length →
      (dnrPredictBatch Y m rows).getD j [] =
        dnrPredictRow Y m (rows.getD j ⟨[], none⟩).ni (rows.getD j ⟨[], none⟩).w := by
    intro j hj
    have := getD_map_of_lt (fun r : QRow => dnrPredictRow Y m r.ni r.w) rows j
      ⟨[], none⟩ [] hj
    simpa [dnrPredictBatch] using this
  refine ⟨?_, by simp, hmap⟩
  rw [hmap i hi, hw]
  simp only [dnrPredictRow]
  have hall : ∀ x ∈ ws, x = 0 := list_eq_zero_of_nonneg_sum_zero ws hnn hz
  have hnum : ∀ j : ℕ,
      List.sum (List.zipWith (fun t wv => (Y t).getD j 0 * wv)
        (rows.getD i ⟨[], none⟩).ni ws) = 0 :=
    fun j => zipWith_mul_sum_zero Y j _ ws hall
  have : ∀ j : ℕ,
      PFloat.qdiv
        (List.sum (List.zipWith (fun t wv => (Y t).getD j 0 * wv)
          (rows.getD i ⟨[], none⟩).ni ws)) ws.sum = PFloat.nan := by
    intro j
    rw [hnum j, hz, PFloat.qdiv]
    simp
  calc (List.range m).map (fun j =>
        PFloat.qdiv
          (List.sum (List.zipWith (fun t wv => (Y t).getD j 0 * wv)
            (rows.getD i ⟨[], none⟩).ni ws)) ws.sum)
      = (List.range m).map (fun _ => PFloat.nan) := List.map_congr_left (fun j _ => this j)
    _ = List.replicate m PFloat.nan := by
        simp [List.map_const']

/-- Witness for `C2_zero_weight_sum_nan`: a two-row batch whose second row
has weights `[0, 0]`. -/
theorem C2_witness :
    (dnrPredictBatch (fun _ => [5]) 1
        [⟨[0], some [1]⟩, ⟨[0, 1], some [0, 0]⟩]).getD 1 []
      = List.replicate 1 PFloat.nan ∧
      PFloat.nan ≠ PFloat.val 0 ∧
      (∀ j, j < ([⟨[0], some [1]⟩, ⟨[0, 1], some [0, 0]⟩] : List QRow).length →
        (dnrPredictBatch (fun _ => [5]) 1
            [⟨[0], some [1]⟩, ⟨[0, 1], some [0, 0]⟩]).getD j [] =
          dnrPredictRow (fun _ => [5]) 1
            (([⟨[0], some [1]⟩, ⟨[0, 1], some [0, 0]⟩] : List QRow).getD j ⟨[], none⟩).ni
            (([⟨[0], some [1]⟩, ⟨[0, 1], some [0, 0]⟩] : List QRow).getD j ⟨[], none⟩).w) :=
  C2_zero_weight_sum_nan (fun _ => [5]) 1 [⟨[0], some [1]⟩, ⟨[0, 1], some [0, 0]⟩]
    1 [0, 0] rfl
    (by intro x hx; simp only [List.mem_cons, List.not_mem_nil, or_false] at hx; rcases hx with h | h <;> simp [h])
    (by simp) (by decide)

/-! ## `GroupedDelaunayNeighborsRegressor.predict` (dnr.py lines 372-405) -/

/-- One group's contribution to a query row of
`GroupedDelaunayNeighborsRegressor.predict`: that group's training values
`Y`, its neighbor indices `ni` and the final weights `w` returned by its
private regressor's `_get_weights`. -/
structure GRow where
  Y : Nat → List ℚ
  ni : List Nat
  w : Option (List ℚ)

/-- dnr.py lines 383-384: `if weights is None: weights = np.ones_like(neigh_ind)`. -/
def gWeights (g : GRow) : List ℚ :=
  match g.w with
  | none => List.replicate g.ni.length 1
  | some ws => ws

/-- The aggregation stage of `GroupedDelaunayNeighborsRegressor.predict`
(dnr.py lines 388-400) for one query row: concatenate all groups' weight
vectors, form the single shared denominator, and for each output column
concatenate all groups' neighbor values and divide the joint weighted sum by
that denominator. -/
def groupedAggRow (gs : List GRow) (m : ℕ) : List PFloat :=
  let weights := (gs.map gWeights).flatten
  (List.range m).map fun j =>
    let ys := (gs.map fun g => g.ni.map fun t => (g.Y t).getD j 0).flatten
    PFloat.qdiv (List.sum (List.zipWith (· * ·) ys weights)) weights.sum

/-- Full single-row pipeline of `DelaunayNeighborsRegressor.predict`:
`_get_weights` followed by the weighted mean. -/
def dnrPredictRowFull (wp : WeightsParam) (dp : DelaunayParam)
    (sw : Option (Nat → ℚ)) (Y : Nat → List ℚ) (m : ℕ)
    (nd : List ℚ) (ni : List Nat) (tri : List Bool) : Except String (List PFloat) :=
  match dnrGetWeightsRow wp dp sw nd ni tri with
  | .error e => .error e
  | .ok w => .ok (dnrPredictRow Y m ni w)

/-- Full single-row pipeline of `GroupedDelaunayNeighborsRegressor.predict`
when exactly one group was seen at fit time: that single group's private
regressor holds the whole training set (dnr.py lines 356-370 partition by
the unique label, and with one label the partition keeps every row in
order), `_get_weights` is invoked with `weightf = self.weights` exactly as
the base regressor does internally (lines 378-382 with a non-dict
`weights`), and the aggregation runs over the one-element group list. -/
def groupedPredictRowFullSingle (wp : WeightsParam) (dp : DelaunayParam)
    (sw : Option (Nat → ℚ)) (Y : Nat → List ℚ) (m : ℕ)
    (nd : List ℚ) (ni : List Nat) (tri : List Bool) : Except String (List PFloat) :=
  match dnrGetWeightsRow wp dp sw nd ni tri with
  | .error e => .error e
  | .ok w => .ok (groupedAggRow [⟨Y, ni, w⟩] m)

theorem zipWith_mul_replicate_one (l : List ℚ) :
    List.zipWith (· * ·) l (List.replicate l.length 1) = l := by
  induction l with
  | nil => rfl
  | cons a t ih => simp [List.replicate_succ, ih]

theorem qdiv_sum_length (l : List ℚ) :
    PFloat.qdiv l.sum (l.length : ℚ) = qmean l := by
  cases l with
  | nil => rfl
  | cons a t =>
      have hlen : ((a :: t).length : ℚ) ≠ 0 := by
        have h0 : (a :: t).length ≠ 0 := (Nat.succ_ne_zero t.length)
        exact_mod_cast h0
      rw [qmean, if_neg (by simp), PFloat.qdiv, if_neg hlen]

/-! ## Claim C5 -/

/-- C5 (confirmed): for every query row, the grouped regressor fitted with a
single group predicts exactly what the base regressor predicts from the same
training data, constructor options and oracles.  The two pipelines share
`_get_weights` verbatim; the aggregation differs only in that the grouped
code replaces `None` weights by an all-ones vector and uses an explicit
joint denominator, which coincides with `np.mean` (including the degenerate
empty-neighborhood case, where both give `nan`). -/
theorem C5_grouped_single_eq_base (wp : WeightsParam) (dp : DelaunayParam)
    (sw : Option (Nat → ℚ)) (Y : Nat → List ℚ) (m : ℕ)
    (nd : List ℚ) (ni : List Nat) (tri : List Bool) :
    groupedPredictRowFullSingle wp dp sw Y m nd ni tri =
      dnrPredictRowFull wp dp sw Y m nd ni tri := by
  rw [groupedPredictRowFullSingle, dnrPredictRowFull]
  cases h : dnrGetWeightsRow wp dp sw nd ni tri with
  | error e => rfl
  | ok w =>
      refine congrArg Except.ok ?_
      cases w with
      | none =>
          simp only [groupedAggRow, dnrPredictRow, gWeights, List.map_singleton,
            List.flatten_cons, List.flatten_nil, List.append_nil]
          refine List.map_congr_left (fun j _ => ?_)
          have hys : (ni.map fun t => (Y t).getD j 0).length = ni.length := by
            simp
          rw [← hys, zipWith_mul_replicate_one, List.sum_replicate, nsmul_eq_mul,
            mul_one, hys]
          have := qdiv_sum_length (ni.map fun t => (Y t).getD j 0)
          rw [hys] at this
          exact this
      | some ws =>
          simp only [groupedAggRow, dnrPredictRow, gWeights, List.map_singleton,
            List.flatten_cons, List.flatten_nil, List.append_nil]
          refine List.map_congr_left (fun j _ => ?_)
          rw [List.zipWith_map_left]

/-! ## `FusedDelaunayNeighborsRegressor` (dnr.py lines 412-473) -/

/-- One fitted group of a `FusedDelaunayNeighborsRegressor`: its label and
its private base regressor's per-row prediction (`dnr.predict(X)` restricted
to one query row; the prediction may contain IEEE special values).  `Q` is
the query-row type. -/
structure FGroup (Q : Type) where
  label : String
  pred : Q → List PFloat

/-- dnr.py lines 452-454: `if fusion_weight is None: fusion_weight = {}` —
the default constructor argument is stored as the empty mapping. -/
def fusionInit {Q : Type} (fw : Option (String → Option (FGroup Q → Q → ℚ))) :
    String → Option (FGroup Q → Q → ℚ) :=
  match fw with
  | none => fun _ => none
  | some f => f

/-- The per-group loop of `FusedDelaunayNeighborsRegressor.predict` (dnr.py
lines 466-468): groups are visited in `self._dnrs` iteration order and
`self.fusion_weight[g]` is looked up for each; a label absent from the
mapping raises `KeyError` (modelled as `Except.error` carrying the label) at
the first uncovered group. -/
def resolveFusion {Q : Type} (fw : String → Option (FGroup Q → Q → ℚ)) :
    List (FGroup Q) → Except String (List (FGroup Q × (FGroup Q → Q → ℚ)))
  | [] => .ok []
  | g :: rest =>
      match fw g.label with
      | none => .error g.label
      | some f =>
          match resolveFusion fw rest with
          | .error e => .error e
          | .ok l => .ok ((g, f) :: l)

/-- One query row of the fusion arithmetic (dnr.py lines 469-472): the
scale of each group is its fusion-weight function evaluated at the row, the
denominator is the sum of the scales, and each output column is
`(scales * y_preds[..., j]).sum(1) / denom` in IEEE float arithmetic. -/
def fusedRow {Q : Type} (pairs : List (FGroup Q × (FGroup Q → Q → ℚ)))
    (m : ℕ) (x : Q) : List PFloat :=
  let scales : List ℚ := pairs.map fun p => p.2 p.1 x
  let preds : List (List PFloat) := pairs.map fun p => p.1.pred x
  let denom : ℚ := scales.sum
  (List.range m).map fun j =>
    PFloat.div
      (PFloat.psum (List.zipWith
        (fun s yp => PFloat.mul (PFloat.val s) (yp.getD j PFloat.nan)) scales preds))
      (PFloat.val denom)

/-- `FusedDelaunayNeighborsRegressor.predict` (dnr.py lines 456-473): look
up every group's fusion-weight function (failing with `KeyError` at the
first uncovered label), then fuse each query row. -/
def fusedPredict {Q : Type} (fw : String → Option (FGroup Q → Q → ℚ))
    (gs : List (FGroup Q)) (m : ℕ) (X : List Q) :
    Except String (List (List PFloat)) :=
  match resolveFusion fw gs with
  | .error e => .error e
  | .ok pairs => .ok (X.map fun x => fusedRow pairs m x)

theorem resolveFusion_covered {Q : Type} (F : String → FGroup Q → Q → ℚ)
    (fw : String → Option (FGroup Q → Q → ℚ)) (gs : List (FGroup Q))
    (hc : ∀ g ∈ gs, fw g.label = some (F g.label)) :
    resolveFusion fw gs = .ok (gs.map fun g => (g, F g.label)) := by
  induction gs with
  | nil => rfl
  | cons g rest ih =>
      rw [resolveFusion, hc g (by simp), ih (fun g hg => hc g (by simp [hg]))]
      rfl

theorem zipWith_map_same {α β γ δ : Type} (f : β → γ → δ) (a : α → β)
    (b : α → γ) (l : List α) :
    List.zipWith f (l.map a) (l.map b) = l.map fun x => f (a x) (b x) := by
  induction l with
  | nil => rfl
  | cons x t ih => simp [ih]

/-! ## Claim C6 -/

/-- C6 (confirmed): when the fusion-weight mapping covers every fitted
group, `FusedDelaunayNeighborsRegressor.predict` succeeds and every query
row and output column equals
`sum_g(fusion_weight[g](regressor_g, X) * prediction_g) /
 sum_g(fusion_weight[g](regressor_g, X))`
where `prediction_g` is group `g`'s own base-regressor prediction. -/
theorem C6_fused_weighted_mean {Q : Type} (F : String → FGroup Q → Q → ℚ)
    (fw : String → Option (FGroup Q → Q → ℚ)) (gs : List (FGroup Q))
    (m : ℕ) (X : List Q)
    (hc : ∀ g ∈ gs, fw g.label = some (F g.label)) :
    fusedPredict fw gs m X =
      .ok (X.map fun x => (List.range m).map fun j =>
        PFloat.div
          (PFloat.psum (gs.map fun g =>
            PFloat.mul (PFloat.val (F g.label g x)) ((g.pred x).getD j PFloat.nan)))
          (PFloat.val (gs.map fun g => F g.label g x).sum)) := by
  rw [fusedPredict, resolveFusion_covered F fw gs hc]
  refine congrArg Except.ok (List.map_congr_left (fun x _ => ?_))
  rw [fusedRow]
  simp only [List.map_map]
  refine List.map_congr_left (fun j _ => ?_)
  rw [zipWith_map_same (fun s yp => PFloat.mul (PFloat.val s) (yp.getD j PFloat.nan))
    ((fun p : FGroup Q × (FGroup Q → Q → ℚ) => p.2 p.1 x) ∘ fun g => (g, F g.label))
    ((fun p : FGroup Q × (FGroup Q → Q → ℚ) => p.1.pred x) ∘ fun g => (g, F g.label)) gs]
  rfl

/-- Witness for `C6_fused_weighted_mean`: one group labelled `a` predicting
the constant `2` with constant fusion weight `1`, on a single query row. -/
theorem C6_witness :
    fusedPredict (Q := Unit) (fun l => some (fun _ _ => (1 : ℚ)))
        [⟨"a", fun _ => [PFloat.val 2]⟩] 1 [()] =
      .ok ([()].map fun x => (List.range 1).map fun j =>
        PFloat.div
          (PFloat.psum (([⟨"a", fun _ => [PFloat.val 2]⟩] : List (FGroup Unit)).map fun g =>
            PFloat.mul (PFloat.val ((fun (_ : String) (_ : FGroup Unit) (_ : Unit) => (1 : ℚ)) g.label g x))
              ((g.pred x).getD j PFloat.nan)))
          (PFloat.val (([⟨"a", fun _ => [PFloat.val 2]⟩] : List (FGroup Unit)).map fun g =>
            (fun (_ : String) (_ : FGroup Unit) (_ : Unit) => (1 : ℚ)) g.label g x).sum)) :=
  C6_fused_weighted_mean (fun _ _ _ => (1 : ℚ)) (fun _ => some (fun _ _ => (1 : ℚ)))
    [⟨"a", fun _ => [PFloat.val 2]⟩] 1 [()] (fun g _ => rfl)

/-! ## Claim C10 -/

theorem resolveFusion_first_missing {Q : Type}
    (fw : String → Option (FGroup Q → Q → ℚ)) (gs1 gs2 : List (FGroup Q))
    (g0 : FGroup Q) (hcov : ∀ g ∈ gs1, (fw g.label).isSome)
    (h0 : fw g0.label = none) :
    resolveFusion fw (gs1 ++ g0 :: gs2) = .error g0.label := by
  induction gs1 with
  | nil => simp [resolveFusion, h0]
  | cons g t ih =>
      have hg : (fw g.label).isSome := hcov g (by simp)
      rcases Option.isSome_iff_exists.mp hg with ⟨f, hf⟩
      rw [List.cons_append, resolveFusion, hf,
        ih (fun g hg2 => hcov g (by simp [hg2]))]

/-- C10 (confirmed): the default `fusion_weight=None` is stored as the empty
mapping, and `predict` with any mapping that misses a fitted group label
fails with `KeyError` naming the first uncovered group (in `self._dnrs`
iteration order) instead of returning a prediction — for any query set. -/
theorem C10_missing_fusion_weight {Q : Type}
    (fw : String → Option (FGroup Q → Q → ℚ)) (gs1 gs2 : List (FGroup Q))
    (g0 : FGroup Q) (m : ℕ) (X : List Q)
    (hcov : ∀ g ∈ gs1, (fw g.label).isSome) (h0 : fw g0.label = none) :
    fusionInit (Q := Q) none = (fun _ => none) ∧
      fusedPredict fw (gs1 ++ g0 :: gs2) m X = .error g0.label := by
  refine ⟨rfl, ?_⟩
  rw [fusedPredict, resolveFusion_first_missing fw gs1 gs2 g0 hcov h0]

/-- Witness for `C10_missing_fusion_weight`: two groups, the default empty
mapping, error at the first group. -/
theorem C10_witness :
    fusionInit (Q := Unit) none = (fun _ => none) ∧
      fusedPredict (Q := Unit) (fun _ => none)
          ([] ++ (⟨"a", fun _ => [PFloat.val 2]⟩ :
            FGroup Unit) :: [⟨"b", fun _ => [PFloat.val 3]⟩]) 1 [()] =
        .error "a" :=
  C10_missing_fusion_weight (fun _ => none) [] [⟨"b", fun _ => [PFloat.val 3]⟩]
    ⟨"a", fun _ => [PFloat.val 2]⟩ 1 [()] (fun g hg => by simp at hg) rfl

/-! ## `airfuse/dnr/_bc.py`: `_BCRegressor.predict` arithmetic

Per query row, `raw_mod` is the raw background-model column of `X`
(`X[:, -1:]`), `obs_dnr` and `mod_dnr` are the underlying regressor's joint
prediction of the interpolated observation and interpolated background
(`_y[:, 1:]` and `_y[:, :1]`), and `serr` is the error-surface regressor's
prediction `self._serrkn.predict(_X)` (one column per derived quantity, in
the order of `_returns['individual']`).  All are IEEE floats. -/

/-- _bc.py line 143: `abc = store['mod_abc'] = raw_mod + obs_dnr - mod_dnr`. -/
def mod_abc (raw_mod obs_dnr mod_dnr : PFloat) : PFloat :=
  PFloat.sub (PFloat.add raw_mod obs_dnr) mod_dnr

/-- _bc.py line 145: `mbc = store['mod_mbc'] = raw_mod * obs_dnr / mod_dnr`. -/
def mod_mbc (raw_mod obs_dnr mod_dnr : PFloat) : PFloat :=
  PFloat.div (PFloat.mul raw_mod obs_dnr) mod_dnr

/-- _bc.py lines 148-149: `ambc = np.mean([abc, mbc], axis=0)` followed by
`ambc[:] = np.where(abc < 0, mbc, ambc)` (the comparison with `nan` is
`False`, keeping the mean). -/
def mod_ambc (abc mbc : PFloat) : PFloat :=
  if PFloat.lt abc (PFloat.val 0) then mbc else PFloat.mean2 abc mbc

/-- _bc.py lines 152-156: `w = serr**-1` and
`store['mod_bbc'] = (indiv * w).sum(-1) / w.sum(-1)`. -/
def mod_bbc (indiv serr : List PFloat) : PFloat :=
  let w := serr.map PFloat.inv
  PFloat.div (PFloat.psum (List.zipWith PFloat.mul indiv w)) (PFloat.psum w)

/-- The `mod_bbc` cell of one query row in mode `best` (also the `mod_bbc`
column of mode `debug`): `indiv` is `[obs_dnr, mod_abc, mod_mbc, mod_ambc]`,
the order of `_returns['individual']` (_bc.py line 38), matching the column
order of the error-surface regressor fitted in `fit` (lines 94-102). -/
def bcBestRow (raw_mod obs_dnr mod_dnr : PFloat) (serr : List PFloat) : PFloat :=
  mod_bbc
    [obs_dnr, mod_abc raw_mod obs_dnr mod_dnr, mod_mbc raw_mod obs_dnr mod_dnr,
      mod_ambc (mod_abc raw_mod obs_dnr mod_dnr) (mod_mbc raw_mod obs_dnr mod_dnr)]
    serr

theorem pf_zero_add (a : PFloat) : PFloat.add (PFloat.val 0) a = a := by
  cases a <;> simp [PFloat.add]

theorem pf_mul_comm (a b : PFloat) : PFloat.mul a b = PFloat.mul b a := by
  cases a <;> cases b <;> simp [PFloat.mul, mul_comm]

/-! ## Claim C3 -/

/-- C3 (confirmed): per row of `_BCRegressor.predict`, with
`abc = raw_mod + obs_dnr - mod_dnr` and `mbc = raw_mod * obs_dnr / mod_dnr`:
when `abc` is a finite value `a ≥ 0`, `mod_ambc` is the arithmetic mean
`(abc + mbc) / 2`; when `a < 0`, `mod_ambc` is `mbc`. -/
theorem C3_ambc_blend (raw_mod obs_dnr mod_dnr : PFloat) (a : ℚ)
    (ha : mod_abc raw_mod obs_dnr mod_dnr = PFloat.val a) :
    (0 ≤ a →
      mod_ambc (mod_abc raw_mod obs_dnr mod_dnr) (mod_mbc raw_mod obs_dnr mod_dnr) =
        PFloat.div
          (PFloat.add (mod_abc raw_mod obs_dnr mod_dnr) (mod_mbc raw_mod obs_dnr mod_dnr))
          (PFloat.val 2)) ∧
    (a < 0 →
      mod_ambc (mod_abc raw_mod obs_dnr mod_dnr) (mod_mbc raw_mod obs_dnr mod_dnr) =
        mod_mbc raw_mod obs_dnr mod_dnr) := by
  constructor
  · intro h0
    have hlt : PFloat.lt (PFloat.val a) (PFloat.val 0) = false := by
      simp [PFloat.lt, not_lt.mpr h0]
    rw [mod_ambc, ha, hlt]
    simp [PFloat.mean2]
  · intro h0
    have hlt : PFloat.lt (PFloat.val a) (PFloat.val 0) = true := by
      simp [PFloat.lt, h0]
    rw [mod_ambc, ha, hlt]
    simp

/-- Witness for `C3_ambc_blend` at `raw_mod = obs_dnr = mod_dnr = 1`,
where `abc = 1`. -/
theorem C3_witness :
    (0 ≤ (1 : ℚ) →
      mod_ambc (mod_abc (PFloat.val 1) (PFloat.val 1) (PFloat.val 1))
          (mod_mbc (PFloat.val 1) (PFloat.val 1) (PFloat.val 1)) =
        PFloat.div
          (PFloat.add (mod_abc (PFloat.val 1) (PFloat.val 1) (PFloat.val 1))
            (mod_mbc (PFloat.val 1) (PFloat.val 1) (PFloat.val 1)))
          (PFloat.val 2)) ∧
    ((1 : ℚ) < 0 →
      mod_ambc (mod_abc (PFloat.val 1) (PFloat.val 1) (PFloat.val 1))
          (mod_mbc (PFloat.val 1) (PFloat.val 1) (PFloat.val 1)) =
        mod_mbc (PFloat.val 1) (PFloat.val 1) (PFloat.val 1)) :=
  C3_ambc_blend (PFloat.val 1) (PFloat.val 1) (PFloat.val 1) 1
    (by simp [mod_abc, PFloat.add, PFloat.sub, PFloat.neg])

/-! ## Claim C4 -/

/-- C4 (confirmed): in mode `best` (and the `mod_bbc` column of `debug`),
each row's blended value is the weighted mean of the four quantities
`obs_dnr`, `abc`, `mbc`, `ambc` with each quantity's weight the reciprocal
of the error-surface regressor's prediction of its cross-validated squared
error: `mod_bbc = sum_q(w_q * q) / sum_q(w_q)` with `w_q = serr_q ** -1`. -/
theorem C4_best_blend (raw_mod obs_dnr mod_dnr s0 s1 s2 s3 : PFloat) :
    bcBestRow raw_mod obs_dnr mod_dnr [s0, s1, s2, s3] =
      PFloat.div
        (PFloat.add
          (PFloat.add
            (PFloat.add (PFloat.mul (PFloat.inv s0) obs_dnr)
              (PFloat.mul (PFloat.inv s1) (mod_abc raw_mod obs_dnr mod_dnr)))
            (PFloat.mul (PFloat.inv s2) (mod_mbc raw_mod obs_dnr mod_dnr)))
          (PFloat.mul (PFloat.inv s3)
            (mod_ambc (mod_abc raw_mod obs_dnr mod_dnr) (mod_mbc raw_mod obs_dnr mod_dnr))))
        (PFloat.add (PFloat.add (PFloat.add (PFloat.inv s0) (PFloat.inv s1)) (PFloat.inv s2))
          (PFloat.inv s3)) := by
  rw [bcBestRow, mod_bbc]
  simp only [List.map_cons, List.map_nil, List.zipWith_cons_cons, List.zipWith_nil_right,
    PFloat.psum, List.foldl_cons, List.foldl_nil, pf_zero_add]
  rw [pf_mul_comm obs_dnr (PFloat.inv s0),
    pf_mul_comm (mod_abc raw_mod obs_dnr mod_dnr) (PFloat.inv s1),
    pf_mul_comm (mod_mbc raw_mod obs_dnr mod_dnr) (PFloat.inv s2),
    pf_mul_comm (mod_ambc (mod_abc raw_mod obs_dnr mod_dnr)
      (mod_mbc raw_mod obs_dnr mod_dnr)) (PFloat.inv s3)]

/-! ## `airfuse/ensemble.py`: `distweight`

One row of the input dataframe carries, per interpolated source, a distance
cell and a value cell (either may be missing = `NaN`, modelled by `Option`),
plus a background-model cell (`df[modkey]`).  `np.exp` is an oracle
parameter `expf` (transcendental, so not represented in `ℚ`); every theorem
states the logistic factor through the same oracle.  The per-source scale
overrides `scale_kw` default to the empty mapping and are not modelled. -/

/-- One source's cells in one row of `distweight`'s input. -/
structure DWSource where
  dist : Option ℚ
  val : Option ℚ

/-- ensemble.py lines 44-46: `wgts = (dists**power).where(~vals.isna()).fillna(0)`
then `wgts = wgts.where(wgts != np.inf).fillna(1e20)`.  A missing value or a
missing distance gives weight `0` (killed by the first `fillna(0)`); a zero
distance under a negative power gives `inf`, replaced by the finite constant
`1e20`; otherwise the weight is the exact power `d ** power`. -/
def srcWeight (power : ℤ) (s : DWSource) : ℚ :=
  match s.val, s.dist with
  | none, _ => 0
  | some _, none => 0
  | some _, some d =>
      if d = 0 ∧ power < 0 then 100000000000000000000 else d ^ power

/-- ensemble.py line 51: `totwgt = wgts.sum(axis=1)`. -/
def totWeight (power : ℤ) (ss : List DWSource) : ℚ :=
  (ss.map (srcWeight power)).sum

/-- ensemble.py line 52: `nwgts = wgts.divide(totwgt, axis=0).fillna(0)`.
With the (non-negative, at even negative power) weights all zero the
division is `0/0 = NaN`, restored to `0` by `fillna`. -/
def normWeight (power : ℤ) (ss : List DWSource) (s : DWSource) : ℚ :=
  if totWeight power ss = 0 then 0 else srcWeight power s / totWeight power ss

/-- ensemble.py line 50: `mindist = dists.min(axis=1)` — pandas `min`
skips missing cells and is `NaN` only when every distance is missing. -/
def minDist (ss : List DWSource) : Option ℚ :=
  (ss.filterMap DWSource.dist).min?

/-- ensemble.py lines 53-54:
`bc_wgt = L / (1 + np.exp(k * (mindist - x0)))` then
`bc_wgt = bc_wgt.where(totwgt > 0).fillna(0)` — zero whenever the total
source weight is not positive, and also zero when `mindist` is missing
(the `NaN` logistic value is caught by the same `fillna(0)`). -/
def bcWeight (power : ℤ) (L k x0 : ℚ) (expf : ℚ → ℚ) (ss : List DWSource) : ℚ :=
  if 0 < totWeight power ss then
    match minDist ss with
    | some md => L / (1 + expf (k * (md - x0)))
    | none => 0
  else 0

/-- ensemble.py lines 55-59: the fused cell
`(outdf[valkeys + [modkey]] * df[valkeys + [modkey]]).sum(axis=1)` with
`outdf[valkey] = nwgt * bc_wgt` and `outdf[modkey] = 1 - bc_wgt`, masked to
`NaN` (`Option.none`) where the background value is missing; the pandas
rowwise `sum` skips the `NaN` products of missing source values. -/
def dwFused (power : ℤ) (L k x0 : ℚ) (expf : ℚ → ℚ) (ss : List DWSource)
    (bg : Option ℚ) : Option ℚ :=
  match bg with
  | none => none
  | some mv =>
      some ((ss.map fun s =>
          match s.val with
          | none => 0
          | some v => normWeight power ss s * bcWeight power L k x0 expf ss * v).sum
        + (1 - bcWeight power L k x0 expf ss) * mv)

theorem sum_map_div {α : Type} (l : List α) (f : α → ℚ) (c : ℚ) :
    (l.map fun x => f x / c).sum = (l.map f).sum / c := by
  induction l with
  | nil => simp
  | cons a t ih => simp [ih, add_div]

theorem sum_map_bc_factor (bc : ℚ) (nw : DWSource → ℚ) (ss : List DWSource) :
    (ss.map fun s =>
      match s.val with
      | none => (0 : ℚ)
      | some v => nw s * bc * v).sum =
    bc * (ss.map fun s =>
      match s.val with
      | none => (0 : ℚ)
      | some v => nw s * v).sum := by
  induction ss with
  | nil => simp
  | cons a t ih =>
      rcases a with ⟨ad, av⟩
      cases av with
      | none => simpa using ih
      | some v =>
          simp only [List.map_cons, List.sum_cons, ih]
          ring

/-! ## Claim C7 -/

/-- C7 (counterexample): the claim asserts the per-source weights are
normalized to sum to `1` across sources, unconditionally.  On a row whose
two sources both have missing values, every weight is `0`, the zero total
makes the normalized weights all `0` (`0/0` restored to `0` by `fillna`),
and their sum is `0`, not `1`. -/
theorem C7_counterexample :
    (([⟨some 1, none⟩, ⟨some 2, none⟩] : List DWSource).map
        (normWeight (-2) [⟨some 1, none⟩, ⟨some 2, none⟩])).sum = 0 ∧
      (0 : ℚ) ≠ 1 := by
  refine ⟨?_, by norm_num⟩
  norm_num [normWeight, totWeight, srcWeight]

/-- C7 (amended): for every `distweight` row at the default `power = -2`:
the per-source weight is `0` where the source's value (or distance) is
missing, `1e20` where the distance is exactly zero, and `d ** -2`
otherwise; the normalized weights sum to `1` *whenever the total source
weight is nonzero* (rows with zero total weight keep all-zero normalized
weights); the trust factor is `L / (1 + exp(k * (min_distance - x0)))`
whenever the total weight is positive, and `0` when it is zero; and the
fused output is `bc_weight * sum(nwgt_i * value_i) + (1 - bc_weight) * bg`,
`NaN` (`none`) wherever the background value is missing. -/
theorem C7_amended_thm (L k x0 : ℚ) (expf : ℚ → ℚ) (ss : List DWSource)
    (bg : Option ℚ) :
    (∀ s ∈ ss, (s.val = none → srcWeight (-2) s = 0) ∧
      (∀ v d, s.val = some v → s.dist = some d →
        srcWeight (-2) s = if d = 0 then 100000000000000000000 else d ^ (-2 : ℤ))) ∧
    (totWeight (-2) ss ≠ 0 → (ss.map (normWeight (-2) ss)).sum = 1) ∧
    (0 < totWeight (-2) ss → ∃ md, minDist ss = some md ∧
      bcWeight (-2) L k x0 expf ss = L / (1 + expf (k * (md - x0)))) ∧
    (totWeight (-2) ss = 0 → bcWeight (-2) L k x0 expf ss = 0) ∧
    (bg = none → dwFused (-2) L k x0 expf ss bg = none) ∧
    (∀ mv, bg = some mv → dwFused (-2) L k x0 expf ss bg =
      some (bcWeight (-2) L k x0 expf ss *
          (ss.map fun s =>
            match s.val with
            | none => 0
            | some v => normWeight (-2) ss s * v).sum
        + (1 - bcWeight (-2) L k x0 expf ss) * mv)) := by
  have hneg : ((-2 : ℤ) < 0) := by norm_num
  refine ⟨?_, ?_, ?_, ?_, ?_, ?_⟩
  · intro s _
    constructor
    · intro hv
      simp [srcWeight, hv]
    · intro v d hv hd
      simp [srcWeight, hv, hd, and_iff_left hneg]
  · intro htot
    have : (ss.map (normWeight (-2) ss)) =
        ss.map fun s => srcWeight (-2) s / totWeight (-2) ss :=
      List.map_congr_left fun s _ => by rw [normWeight, if_neg htot]
    rw [this, sum_map_div ss (srcWeight (-2)) (totWeight (-2) ss)]
    exact div_self htot
  · intro htot
    have hex : ∃ s ∈ ss, srcWeight (-2) s ≠ 0 := by
      by_contra hall
      push_neg at hall
      have : totWeight (-2) ss = 0 :=
        List.sum_eq_zero fun x hx => by
          rcases List.mem_map.mp hx with ⟨s, hs, rfl⟩
          exact hall s hs
      exact absurd this (ne_of_gt htot)
    rcases hex with ⟨s, hs, hw⟩
    have hd : ∃ d, s.dist = some d := by
      rcases s with ⟨sd, sv⟩
      cases sv with
      | none => exact (hw rfl).elim
      | some v =>
          cases sd with
          | none => exact (hw rfl).elim
          | some d => exact ⟨d, rfl⟩
    rcases hd with ⟨d, hdd⟩
    cases hmin : minDist ss with
    | none =>
        exfalso
        have hne : d ∈ ss.filterMap DWSource.dist :=
          List.mem_filterMap.mpr ⟨s, hs, hdd⟩
        have : ss.filterMap DWSource.dist = [] := by
          simpa [minDist, List.min?_eq_none_iff] using hmin
        rw [this] at hne
        exact absurd hne (List.not_mem_nil d)
    | some md =>
        exact ⟨md, rfl, by rw [bcWeight, if_pos htot, hmin]⟩
  · intro htot
    rw [bcWeight, if_neg (by rw [htot]; exact lt_irrefl 0)]
  · intro hbg
    rw [hbg]
    rfl
  · intro mv hbg
    rw [hbg, dwFused,
      sum_map_bc_factor (bcWeight (-2) L k x0 expf ss) (normWeight (-2) ss) ss]

/-- Witness for `C7_amended_thm`: a single source at distance `1` with
value `3`, background `2`, `L = 1, k = 1, x0 = 0` and the constant oracle
`exp = 1`. -/
theorem C7_amended_witness :
    ((([⟨some 1, some 3⟩] : List DWSource).map
        (normWeight (-2) [⟨some 1, some 3⟩])).sum = 1) ∧
      (dwFused (-2) 1 1 0 (fun _ => 1) [⟨some 1, some 3⟩] (some 2) =
        some (bcWeight (-2) 1 1 0 (fun _ => 1) [⟨some 1, some 3⟩] *
            (([⟨some 1, some 3⟩] : List DWSource).map fun s =>
              match s.val with
              | none => 0
              | some v => normWeight (-2) [⟨some 1, some 3⟩] s * v).sum
          + (1 - bcWeight (-2) 1 1 0 (fun _ => 1) [⟨some 1, some 3⟩]) * 2)) :=
  ⟨(C7_amended_thm 1 1 0 (fun _ => 1) [⟨some 1, some 3⟩] (some 2)).2.1
      (by norm_num [totWeight, srcWeight]),
    (C7_amended_thm 1 1 0 (fun _ => 1) [⟨some 1, some 3⟩] (some 2)).2.2.2.2.2 2 rfl⟩

/-! ## Claim C8 -/

/-- C8 (counterexample): the claim asserts the stored sample weights are
multiplied into the weight vector in *every* weighting/delaunay
configuration.  With `weights="uniform"` and `delaunay_weights="none"` the
weight vector reaching dnr.py line 276 is still Python `None`, and
`weights *= self._wgt[neigh_ind]` raises `TypeError` instead of
multiplying. -/
theorem C8_counterexample :
    dnrGetWeightsRow WeightsParam.uniform DelaunayParam.dnone (some fun _ => (1 : ℚ))
      [0] [0] [true] = .error "TypeError" := rfl

/-- C8 (amended): in every configuration in which the weight vector
entering the sample-weight step is an actual array (every configuration
except uniform weighting with `delaunay_weights` `"none"`/`None`, where the
step raises `TypeError` instead), `_get_weights` multiplies the stored
per-observation sample weights elementwise into the weight vector, indexed
by the neighbor indices, before the weighted mean. -/
theorem C8_amended_thm (wp : WeightsParam) (dp : DelaunayParam) (f : Nat → ℚ)
    (nd : List ℚ) (ni : List Nat) (tri : List Bool) (ws : List ℚ)
    (h : applyDelaunay dp (adjMask tri (neighDistOpt wp nd))
        (skGetWeights (neighDistOpt wp nd) wp) = .ok (some ws)) :
    dnrGetWeightsRow wp dp (some f) nd ni tri =
      .ok (some (List.zipWith (fun wv t => wv * f t) ws ni)) := by
  rw [dnrGetWeightsRow]
  rw [h]
  rfl

/-- Witness for `C8_amended_thm`: distance weighting, no delaunay
adjustment, one neighbor at distance `1`, sample weight constantly `2`. -/
theorem C8_witness :
    dnrGetWeightsRow WeightsParam.distance DelaunayParam.dnone (some fun _ => (2 : ℚ))
      [1] [0] [false] =
      .ok (some (List.zipWith (fun wv t => wv * (fun _ => (2 : ℚ)) t) [1] [0])) :=
  C8_amended_thm WeightsParam.distance DelaunayParam.dnone (fun _ => (2 : ℚ))
    [1] [0] [false] [1]
    (by norm_num [applyDelaunay, skGetWeights, rowDistWeights, neighDistOpt])

/-! ## Claim C9: configuration validation

The `weights` string is validated by sklearn's parameter-constraint
machinery, an external dependency: `KNeighborsRegressor` restricts
`weights` to the string options `{"uniform", "distance"}`, a callable or
`None`, and dnr.py lines 146-149 extend this with `dict`; the check runs at
the first `fit` (sklearn's `_fit_context`) and raises
`InvalidParameterError` for any other string.  `delaunay_weights` has no
entry in `_parameter_constraints`, so sklearn skips it entirely. -/

/-- The `weights` constructor argument as passed. -/
inductive WeightsInput where
  | wstr (s : String)
  | wfn (f : List ℚ → List ℚ)
  | wnone
  | wdict

/-- Modelled from the sklearn dependency (not repository code): parameter
validation of `weights` at the first `fit` against the constraints of
dnr.py lines 146-149 — the string options are exactly `"uniform"` and
`"distance"`; callables, `None` and dicts pass. -/
def dnrFitValidate : WeightsInput → Except String Unit
  | .wstr s =>
      if s = "uniform" || s = "distance" then .ok ()
      else .error "InvalidParameterError"
  | _ => .ok ()

/-- The keys of `_BCRegressor._needs` (_bc.py lines 12-32). -/
def bcModes : List String :=
  ["obs", "abc", "mbc", "ambc", "individual", "best", "debug"]

/-- `_BCRegressor.fit` performs no validation of `how` (_bc.py lines
50-110): its only dispatch on `how` is `if self.how in ('best', 'all')`
selecting the cross-validation branch; every value of `how` fits without
error. -/
def bcFitHowCheck (how : String) : Except String Unit := .ok ()

/-- _bc.py lines 131-133: `predict` begins with
`assert how in self._needs`; an unknown mode raises `AssertionError` there,
at the first predict. -/
def bcPredictHowCheck (how : String) : Except String Unit :=
  if how ∈ bcModes then .ok () else .error "AssertionError"

/-- C9 (counterexample): the claim asserts unknown `delaunay_weights`
strings and unknown `how` modes raise *at construction or at the first
fit*.  In fact `__init__` stores the unknown string `"foo"` verbatim and
`fit` accepts the unknown mode `"bogus"`; the errors only surface at the
first `predict` (`TypeError` calling the stored string; the
`assert how in self._needs`). -/
theorem C9_counterexample :
    delaunayInit (DelaunayInput.dstr "foo") = DelaunayParam.raw "foo" ∧
      bcFitHowCheck "bogus" = .ok () ∧
      applyDelaunay (DelaunayParam.raw "foo") [] none = .error "TypeError" ∧
      bcPredictHowCheck "bogus" = .error "AssertionError" := by
  exact ⟨rfl, rfl, rfl, rfl⟩

/-- C9 (amended): an unknown `weights` string literal raises at the first
fit (sklearn parameter validation); an unknown `delaunay_weights` string
literal is stored verbatim at construction and every later weight
computation (hence the first predict) raises `TypeError`; an unknown
bias-correction `how` mode passes fit and raises `AssertionError` at the
first predict.  None of the three is ever silently coerced into a valid
configuration. -/
theorem C9_amended_thm (s w how : String)
    (hs : s ≠ "none" ∧ s ≠ "equal" ∧ s ≠ "only")
    (hw : w ≠ "uniform" ∧ w ≠ "distance")
    (hh : how ∉ bcModes) :
    delaunayInit (DelaunayInput.dstr s) = DelaunayParam.raw s ∧
      (∀ isdn wv, applyDelaunay (DelaunayParam.raw s) isdn wv = .error "TypeError") ∧
      dnrFitValidate (WeightsInput.wstr w) = .error "InvalidParameterError" ∧
      bcFitHowCheck how = .ok () ∧
      bcPredictHowCheck how = .error "AssertionError" := by
  refine ⟨?_, fun isdn wv => rfl, ?_, rfl, ?_⟩
  · rw [delaunayInit, if_neg hs.1, if_neg hs.2.1, if_neg hs.2.2]
  · rw [dnrFitValidate]
    simp [hw.1, hw.2]
  · rw [bcPredictHowCheck, if_neg hh]

/-- Witness for `C9_amended_thm` at `"foo"`, `"bogus"` and `"fancy"`. -/
theorem C9_witness :
    delaunayInit (DelaunayInput.dstr "foo") = DelaunayParam.raw "foo" ∧
      (∀ isdn wv, applyDelaunay (DelaunayParam.raw "foo") isdn wv = .error "TypeError") ∧
      dnrFitValidate (WeightsInput.wstr "bogus") = .error "InvalidParameterError" ∧
      bcFitHowCheck "fancy" = .ok () ∧
      bcPredictHowCheck "fancy" = .error "AssertionError" :=
  C9_amended_thm "foo" "bogus" "fancy"
    ⟨by decide, by decide, by decide⟩ ⟨by decide, by decide⟩ (by decide)

end Airfuse
